import Mathlib

/-!
Verification of the header-rewriting mail forwarder (`postforward.go`).

The embedding models byte streams as `List Char` (every byte that matters in
the program is ASCII).  The streaming loop of `headerRewriter` is modelled by
first materialising the sequence of chunks that successive
`bufio.Reader.ReadBytes('\n')` calls return (`allLines`), and then running the
loop body over that chunk list (`hrLoop`).  All definitions are executable so
concrete runs can be settled by `decide`/`rfl`.
-/

namespace Postforward

/-- Byte strings, one `Char` per byte (all relevant bytes are ASCII). -/
abbrev Bytes := List Char

/-- The envelope marker `"From "` checked by `bytes.HasPrefix(line, []byte("From "))`
on line 1 (postforward.go line 99). -/
def envMark : Bytes := ['F', 'r', 'o', 'm', ' ']

/-- The header-removal marker `"From: "` checked by
`bytes.HasPrefix(line, []byte("From: "))` (postforward.go line 104). -/
def fromMark : Bytes := ['F', 'r', 'o', 'm', ':', ' ']

/-- The one-byte line terminator `"\n"`. -/
def lf : Bytes := ['\n']

/-- The two-byte line terminator `"\r\n"`. -/
def crlf : Bytes := ['\r', '\n']

/-- One call of `reader.ReadBytes('\n')`: the returned chunk (up to and
including the first newline when one exists) together with the unread rest.
A returned chunk that does not end in a newline corresponds to the call
reporting `io.EOF`. -/
def readLine : Bytes → Bytes × Bytes
  | [] => ([], [])
  | c :: rest =>
    if c = '\n' then ([c], rest)
    else
      let p := readLine rest
      (c :: p.1, p.2)

/-- Whether a `ReadBytes('\n')` result was delimiter-terminated, i.e. whether
the call succeeded without `io.EOF`. -/
def terminated (l : Bytes) : Bool := l.getLast? == some '\n'

/-- A well-formed single line: ends in a newline and contains no interior
newline.  Every chunk `readLine` returns is of this form or is the final
unterminated chunk. -/
def oneLine (l : Bytes) : Prop := l.getLast? = some '\n' ∧ '\n' ∉ l.dropLast

instance (l : Bytes) : Decidable (oneLine l) := by
  unfold oneLine; infer_instance

/-- The full sequence of chunks produced by calling `ReadBytes('\n')` until it
reports `io.EOF`.  All chunks but the last end in `'\n'`; the last chunk is
the final (possibly empty) read that reports `io.EOF`. -/
def allLines : Bytes → List Bytes
  | [] => [[]]
  | c :: rest =>
    if c = '\n' then [c] :: allLines rest
    else
      match allLines rest with
      | [] => [[c]]
      | l :: ls => (c :: l) :: ls

/-- `guessLineEnding` (postforward.go lines 135-140): `"\r\n"` when the given
line ends with the two-byte terminator, else `"\n"`. -/
def guessLineEnding (line : Bytes) : Bytes :=
  if crlf.isSuffixOf line then crlf else lf

/-- The bytes written by the header-emission loop in `headerRewriter`
(postforward.go lines 94-97): each supplied header followed by the detected
line ending, in order. -/
def hdrBlock (headers : List Bytes) (ending : Bytes) : Bytes :=
  (headers.map (fun h => h ++ ending)).flatten

/-- The body of `headerRewriter`'s read loop (postforward.go lines 81-108),
run over the chunk sequence.  An unterminated chunk is the `io.EOF` case: the
chunk is written to the buffer and the loop returns, skipping all checks.  On
line 1 of a terminated chunk the synthesized headers are emitted and the
envelope check applies; every terminated chunk is then subject to the
`"From: "` removal check.  (`allLines` never produces `[]`, so the `[]` case
is unreachable.) -/
def hrLoop (headers : List Bytes) : Nat → List Bytes → Bytes
  | _, [] => []
  | linenum, line :: more =>
    if terminated line then
      (if linenum = 1 then hdrBlock headers (guessLineEnding line) else [])
        ++ (if linenum = 1 ∧ envMark.isPrefixOf line then []
            else if fromMark.isPrefixOf line then []
            else line)
        ++ hrLoop headers (linenum + 1) more
    else line

/-- `headerRewriter` (postforward.go lines 77-109) as a function on the whole
input byte stream: run the read loop starting at line number 1. -/
def headerRewriter (input : Bytes) (headers : List Bytes) : Bytes :=
  hrLoop headers 1 (allLines input)

/-- The behaviour of `headerRewriter`'s loop from the second line onwards
(the `linenum == 1` block can no longer fire): drop `"From: "`-prefixed
terminated chunks, write everything else, stop at the unterminated chunk. -/
def hrRest : List Bytes → Bytes
  | [] => []
  | line :: more =>
    if terminated line then
      (if fromMark.isPrefixOf line then [] else line) ++ hrRest more
    else line

/-- What the line-1 special case of `headerRewriter` keeps of the first line:
nothing when the envelope check or the `"From: "` check fires, else the line. -/
def keep1 (l : Bytes) : Bytes :=
  if envMark.isPrefixOf l then []
  else if fromMark.isPrefixOf l then []
  else l

/-- Line 1 as the loop reads it: the first `ReadBytes('\n')` result. -/
def firstLine (s : Bytes) : Bytes := (readLine s).1

/-- Number of lines of a byte stream: the terminated chunks plus a final
nonempty unterminated chunk, i.e. the nonempty chunks of `allLines`. -/
def lineCount (s : Bytes) : Nat :=
  ((allLines s).filter (fun l => !l.isEmpty)).length

/-- Number of lines of a byte stream beginning with the `"From: "` marker. -/
def countFrom (s : Bytes) : Nat :=
  ((allLines s).filter (fun l => fromMark.isPrefixOf l)).length

/-! ### The capture phase of `main`

`main` (postforward.go lines 151-152) parses the message with
`mail.ReadMessage(io.TeeReader(os.Stdin, &buffer))`.  `mail.ReadMessage`
wraps its reader in a `bufio.Reader`, which pulls whole chunks from the tee;
the tee copies every pulled byte into `buffer`.  The parser stops consuming
at the first blank line, but the bytes already pulled past it stay in
`buffer`, and line 180 feeds the whole of `buffer` through `headerRewriter`
followed by the unread remainder of stdin.  We model the capture amount as a
parameter `n`: the number of bytes actually pulled from the stream, which is
at least the header/body boundary and at most the whole input (how far past
the boundary depends on how the chunked reads fall). -/

/-- The chunks up to and including the first blank line (`"\n"` or `"\r\n"`):
the header section a `textproto.ReadMIMEHeader`-style parser consumes.
Modelled from the Go standard library parser used by `mail.ReadMessage`. -/
def boundaryChunks : List Bytes → List Bytes
  | [] => []
  | l :: ls => if l = lf ∨ l = crlf then [l] else l :: boundaryChunks ls

/-- Byte index of the header/body boundary recognized by the structured
parser: the total size of the lines up to and including the first blank one. -/
def headerBoundary (s : Bytes) : Nat :=
  (boundaryChunks (allLines s)).flatten.length

/-- The stream handed to sendmail (postforward.go line 180), given that the
capture phase pulled `n` bytes of the input through the tee: the rewritten
captured prefix followed by the untouched remainder. -/
def pipeOutput (s : Bytes) (n : Nat) (headers : List Bytes) : Bytes :=
  headerRewriter (s.take n) headers ++ s.drop n

/-! ### The address resolver (`lookupTCP`, postforward.go lines 37-63) -/

/-- Errors `lookupTCP` can return.  `readFailed` covers an I/O failure or a
malformed response line in `ReadCodeLine`. -/
inductive TTError
  | dialFailed
  | cmdFailed
  | readFailed
  | unexpectedCode (code : Int) (msg : Bytes)
deriving Repr, DecidableEq

/-- Outcome of the network exchange, abstracting the TCP connection:
either one of the three I/O steps fails, or a coded response line arrives. -/
inductive ConnBehavior
  | dialErr
  | cmdErr
  | readErr
  | reply (code : Int) (msg : Bytes)
deriving Repr, DecidableEq

/-- The warning line `lookupTCP` prints to stderr in the code-500 case
(postforward.go line 58). -/
def warning500 (msg : Bytes) : Bytes :=
  "warning: srs: returncode 500 (".toList ++ msg ++ ")\n".toList

/-- `lookupTCP` (postforward.go lines 37-63): result value or error, paired
with the list of warning lines written to stderr. -/
def lookupTCP (key : Bytes) (conn : ConnBehavior) :
    Except TTError Bytes × List Bytes :=
  match conn with
  | .dialErr => (Except.error TTError.dialFailed, [])
  | .cmdErr => (Except.error TTError.cmdFailed, [])
  | .readErr => (Except.error TTError.readFailed, [])
  | .reply code msg =>
    if code = 200 then (Except.ok msg, [])
    else if code = 500 then (Except.ok key, [warning500 msg])
    else (Except.error (TTError.unexpectedCode code msg), [])

/-! ### The orchestrator (`main`, postforward.go lines 142-198) -/

/-- The header values `main` extracts: `message.Header.Get(*rpHeader)` and
`message.Header.Get("From")`, each `[]` when the header is absent. -/
structure MsgHeaders where
  returnPath : Bytes
  fromField : Bytes
deriving Repr, DecidableEq

/-- How the process ends: a normal termination with an exit code, or a Go
runtime panic (which exits with a code outside the program's own mapping). -/
inductive Outcome
  | exited (code : Nat)
  | panicked
deriving Repr, DecidableEq

/-- Observable result of one run: how the process ended, whether the
sendmail delivery subprocess was started, the value passed to sendmail's
`-f` flag (the resolved return path), and the synthesized extra headers
(`none` when the run died before composing them). -/
structure RunResult where
  outcome : Outcome
  sendmailInvoked : Bool
  fArg : Option Bytes
  synthesized : Option (List Bytes)
deriving Repr, DecidableEq

/-- A Go slice expression `s[lo:hi]`: defined when `0 ≤ lo ≤ hi ≤ len(s)`,
a bounds panic otherwise. -/
def goSlice (s : Bytes) (lo hi : Int) : Option Bytes :=
  if 0 ≤ lo ∧ lo ≤ hi ∧ hi ≤ (s.length : Int) then
    some ((s.drop lo.toNat).take (hi - lo).toNat)
  else none

/-- `returnPath[1 : len(returnPath)-1]` (postforward.go line 174): the
bracket-stripping slice, which panics when the value is shorter than 2. -/
def stripAngles (rp : Bytes) : Option Bytes :=
  goSlice rp 1 ((rp.length : Int) - 1)

/-- The display name computed at postforward.go lines 162-167. -/
def forwardedFrom (fromField : Bytes) : Bytes :=
  if fromField = [] then "unknown (forwarded)".toList
  else fromField ++ " (forwarded)".toList

/-- The synthesized header list (postforward.go lines 169-172), built from
the hostname, the formatted timestamp and the still-unstripped return-path
value. -/
def extraHeaders (hostname timestamp returnPath : Bytes) : List Bytes :=
  ["Received: by ".toList ++ hostname ++ " (Postforward); ".toList ++ timestamp,
   "X-Original-Return-Path: ".toList ++ returnPath]

/-- The control flow of `main` after flag parsing (postforward.go lines
151-197).  `parsed` is the `mail.ReadMessage` outcome (`none` = parse error),
`conn` the resolver connection behaviour, `dryRun` the `-dry-run` flag,
`sendmailOk` whether `sendmail.Run()` succeeds.  Steps in source order:
parse (exit 65 on failure), reject an empty return-path value (exit 65),
compose the extra headers from the unstripped value, strip the brackets
(runtime panic when the value has fewer than 2 bytes), resolve (exit 75 on
error), then either dry-run (exit 0, no delivery) or run sendmail (exit 75
on failure, normal return — exit 0 — on success). -/
def mainModel (hostname timestamp : Bytes) (parsed : Option MsgHeaders)
    (conn : ConnBehavior) (dryRun sendmailOk : Bool) : RunResult :=
  match parsed with
  | none => ⟨Outcome.exited 65, false, none, none⟩
  | some m =>
    if m.returnPath = [] then ⟨Outcome.exited 65, false, none, none⟩
    else
      let hdrs := extraHeaders hostname timestamp m.returnPath
      match stripAngles m.returnPath with
      | none => ⟨Outcome.panicked, false, none, some hdrs⟩
      | some key =>
        match lookupTCP key conn with
        | (Except.error _, _) => ⟨Outcome.exited 75, false, none, some hdrs⟩
        | (Except.ok addr, _) =>
          if dryRun then ⟨Outcome.exited 0, false, some addr, some hdrs⟩
          else if sendmailOk then ⟨Outcome.exited 0, true, some addr, some hdrs⟩
          else ⟨Outcome.exited 75, true, some addr, some hdrs⟩

/-! ### Structural lemmas about `readLine` and `allLines` -/

theorem readLine_append (s : Bytes) : (readLine s).1 ++ (readLine s).2 = s := by
  induction s with
  | nil => rfl
  | cons c rest ih =>
    by_cases h : c = '\n'
    · simp [readLine, h]
    · simp [readLine, h, ih]

theorem readLine_fst_ne_nil (s : Bytes) (h : s ≠ []) : (readLine s).1 ≠ [] := by
  cases s with
  | nil => exact absurd rfl h
  | cons c rest => by_cases hc : c = '\n' <;> simp [readLine, hc]

theorem readLine_snd_length (s : Bytes) (h : s ≠ []) :
    (readLine s).2.length < s.length := by
  have h1 : (readLine s).1.length + (readLine s).2.length = s.length := by
    rw [← List.length_append, readLine_append]
  have h2 : 0 < (readLine s).1.length :=
    List.length_pos.mpr (readLine_fst_ne_nil s h)
  omega

theorem readLine_cases (s : Bytes) :
    ((readLine s).1 = s ∧ '\n' ∉ s) ∨ oneLine (readLine s).1 := by
  induction s with
  | nil => exact Or.inl ⟨rfl, by simp⟩
  | cons c rest ih =>
    by_cases hc : c = '\n'
    · subst hc
      right
      simp [readLine, oneLine]
    · rcases ih with ⟨h1, h2⟩ | h1
      · left
        refine ⟨by simp [readLine, hc, h1], ?_⟩
        intro hm
        rcases List.mem_cons.mp hm with h | h
        · exact hc h.symm
        · exact h2 h
      · right
        have hne : (readLine rest).1 ≠ [] := by
          intro hn
          rw [hn] at h1
          simp [oneLine] at h1
        obtain ⟨d, t, hd⟩ := List.exists_cons_of_ne_nil hne
        refine ⟨?_, ?_⟩
        · show ((readLine (c :: rest)).1).getLast? = some '\n'
          simp only [readLine, if_neg hc]
          rw [hd, List.getLast?_cons_cons]
          rw [hd] at h1
          exact h1.1
        · show '\n' ∉ ((readLine (c :: rest)).1).dropLast
          simp only [readLine, if_neg hc]
          rw [hd, List.dropLast_cons₂]
          intro hm
          rcases List.mem_cons.mp hm with h | h
          · exact hc h.symm
          · rw [hd] at h1
            exact h1.2 h

theorem mem_of_terminated (s : Bytes) (h : terminated s = true) : '\n' ∈ s := by
  unfold terminated at h
  rw [beq_iff_eq] at h
  exact List.mem_of_getLast?_eq_some h

theorem oneLine_terminated (l : Bytes) (h : oneLine l) : terminated l = true := by
  unfold terminated
  rw [beq_iff_eq]
  exact h.1

theorem oneLine_ne_nil (l : Bytes) (h : oneLine l) : l ≠ [] := by
  intro hn
  rw [hn] at h
  simp [oneLine] at h

theorem oneLine_readLine (s : Bytes) (h : terminated s = true) :
    oneLine (readLine s).1 := by
  rcases readLine_cases s with ⟨_, h2⟩ | h1
  · exact absurd (mem_of_terminated s h) h2
  · exact h1

theorem readLine_snd_terminated (s : Bytes) (h : terminated s = true) :
    (readLine s).2 = [] ∨ terminated (readLine s).2 = true := by
  cases hemp : (readLine s).2 with
  | nil => exact Or.inl rfl
  | cons d t =>
    right
    have happ := readLine_append s
    unfold terminated at h ⊢
    rw [beq_iff_eq] at h ⊢
    rw [← happ, hemp, List.getLast?_append] at h
    cases hg : (d :: t).getLast? with
    | none => simp at hg
    | some a =>
      rw [hg] at h
      simpa using h

theorem allLines_append (l : Bytes) :
    ∀ t : Bytes, oneLine l → allLines (l ++ t) = l :: allLines t := by
  induction l with
  | nil => intro t h; exact absurd h (by simp [oneLine])
  | cons c rest ih =>
    intro t h
    cases rest with
    | nil =>
      have hc : c = '\n' := by
        have := h.1
        simpa using this
      subst hc
      simp [allLines]
    | cons d t2 =>
      have h1 : (d :: t2).getLast? = some '\n' := by
        have := h.1
        rwa [List.getLast?_cons_cons] at this
      have h2 : '\n' ∉ (d :: t2).dropLast := by
        intro hm
        exact h.2 (by rw [List.dropLast_cons₂]; exact List.mem_cons_of_mem _ hm)
      have hc : c ≠ '\n' := by
        intro hc
        exact h.2 (by rw [List.dropLast_cons₂, hc]; exact List.mem_cons_self _ _)
      have ihr := ih (t := t) ⟨h1, h2⟩
      rw [show (d :: t2) ++ t = d :: (t2 ++ t) from rfl] at ihr
      have key : allLines (c :: (d :: (t2 ++ t))) =
          match allLines (d :: (t2 ++ t)) with
          | [] => [[c]]
          | l :: ls => (c :: l) :: ls := by
        conv_lhs => rw [allLines]
        rw [if_neg hc]
      rw [List.cons_append]
      show allLines (c :: (d :: (t2 ++ t))) = (c :: d :: t2) :: allLines t
      rw [key, ihr]

theorem allLines_no_newline (s : Bytes) (h : '\n' ∉ s) : allLines s = [s] := by
  induction s with
  | nil => rfl
  | cons c rest ih =>
    have hc : c ≠ '\n' := by
      intro hc
      exact h (by rw [hc]; exact List.mem_cons_self _ _)
    have ihr := ih (fun hm => h (List.mem_cons_of_mem _ hm))
    simp only [allLines, if_neg hc]
    rw [ihr]

theorem allLines_readLine (s : Bytes) (h : terminated s = true) :
    allLines s = (readLine s).1 :: allLines (readLine s).2 := by
  conv_lhs => rw [← readLine_append s]
  exact allLines_append _ _ (oneLine_readLine s h)

/-! ### Behaviour of the rewrite loop -/

theorem hrLoop_ge_two (headers : List Bytes) (ls : List Bytes) :
    ∀ ln : Nat, 2 ≤ ln → hrLoop headers ln ls = hrRest ls := by
  induction ls with
  | nil => intro ln _; rfl
  | cons line more ih =>
    intro ln hln
    have h1 : ¬ ln = 1 := by omega
    by_cases ht : terminated line
    · simp [hrLoop, hrRest, h1, ht, ih (ln + 1) (by omega)]
    · simp [hrLoop, hrRest, h1, ht]

/-- Unfolding `headerRewriter` over a well-formed first line: emit the header
block with the detected terminator, apply the line-1 checks to line 1, and run
the tail loop over the rest. -/
theorem headerRewriter_cons (l t : Bytes) (headers : List Bytes) (h : oneLine l) :
    headerRewriter (l ++ t) headers =
      hdrBlock headers (guessLineEnding l) ++ keep1 l ++ hrRest (allLines t) := by
  unfold headerRewriter
  rw [allLines_append l t h]
  have ht := oneLine_terminated l h
  simp [hrLoop, ht, keep1, hrLoop_ge_two headers (allLines t) 2 (by omega),
    List.append_assoc]

theorem lineCount_oneLine_append (l X : Bytes) (h : oneLine l) :
    lineCount (l ++ X) = 1 + lineCount X := by
  unfold lineCount
  rw [allLines_append l X h, List.filter_cons]
  have hne : l.isEmpty = false := by
    cases hl : l with
    | nil => exact absurd hl (oneLine_ne_nil l h)
    | cons c cs => rfl
  simp [hne, Nat.add_comm]

theorem countFrom_oneLine_append (l X : Bytes) (h : oneLine l) :
    countFrom (l ++ X) =
      (if fromMark.isPrefixOf l then 1 else 0) + countFrom X := by
  unfold countFrom
  rw [allLines_append l X h, List.filter_cons]
  by_cases hf : fromMark.isPrefixOf l <;> simp [hf, Nat.add_comm]

theorem oneLine_header (h e : Bytes) (hn : '\n' ∉ h) (he : e = lf ∨ e = crlf) :
    oneLine (h ++ e) := by
  rcases he with rfl | rfl
  · exact ⟨by simp [lf, List.getLast?_concat], by simp [lf, hn]⟩
  · have hsplit : h ++ crlf = (h ++ ['\r']) ++ ['\n'] := by
      simp [crlf]
    rw [hsplit]
    refine ⟨by simp [List.getLast?_concat], ?_⟩
    rw [List.dropLast_concat]
    simp [hn]

theorem guessLineEnding_cases (l : Bytes) :
    guessLineEnding l = lf ∨ guessLineEnding l = crlf := by
  unfold guessLineEnding
  by_cases h : crlf.isSuffixOf l <;> simp [h]

theorem lineCount_hdrBlock (headers : List Bytes) (e X : Bytes)
    (hh : ∀ h ∈ headers, '\n' ∉ h) (he : e = lf ∨ e = crlf) :
    lineCount (hdrBlock headers e ++ X) = headers.length + lineCount X := by
  induction headers with
  | nil => simp [hdrBlock]
  | cons h hs ih =>
    have hsplit : hdrBlock (h :: hs) e ++ X = (h ++ e) ++ (hdrBlock hs e ++ X) := by
      simp [hdrBlock, List.append_assoc]
    rw [hsplit, lineCount_oneLine_append _ _ (oneLine_header h e (hh h (by simp)) he),
      ih (fun g hg => hh g (by simp [hg]))]
    simp [List.length_cons]
    omega

/-- A line matching the envelope marker `"From "` cannot also match the
header-removal marker `"From: "`: the two differ at byte 4. -/
theorem env_from_disjoint (l : Bytes) (h : envMark.isPrefixOf l = true) :
    fromMark.isPrefixOf l = false := by
  rw [List.isPrefixOf_iff_prefix] at h
  obtain ⟨t, rfl⟩ := h
  rw [← Bool.not_eq_true]
  simp only [List.isPrefixOf_iff_prefix]
  intro hcon
  obtain ⟨u, hu⟩ := hcon
  have h4 : (fromMark ++ u)[4]? = (envMark ++ t)[4]? := by rw [hu]
  rw [List.getElem?_append_left (by simp [fromMark]),
    List.getElem?_append_left (by simp [envMark])] at h4
  exact absurd h4 (by decide)

/-- The tail loop removes exactly the `"From: "`-marked lines; counting
version: lines out plus `"From: "` lines equals lines in, for a stream whose
final chunk is terminated (or which is empty). -/
theorem lineCount_hrRest (s : Bytes) (h : s = [] ∨ terminated s = true) :
    lineCount (hrRest (allLines s)) + countFrom s = lineCount s := by
  rcases h with rfl | hterm
  · decide
  · have hone := oneLine_readLine s hterm
    have happ := readLine_append s
    have ht1 : terminated (readLine s).1 = true := oneLine_terminated _ hone
    rw [allLines_readLine s hterm]
    have hrec := lineCount_hrRest (readLine s).2 (readLine_snd_terminated s hterm)
    have hcnt : lineCount s = 1 + lineCount (readLine s).2 := by
      conv_lhs => rw [← happ]
      exact lineCount_oneLine_append _ _ hone
    have hcf : countFrom s =
        (if fromMark.isPrefixOf (readLine s).1 then 1 else 0) +
          countFrom (readLine s).2 := by
      conv_lhs => rw [← happ]
      exact countFrom_oneLine_append _ _ hone
    rw [hcnt, hcf]
    by_cases hf : fromMark.isPrefixOf (readLine s).1
    · simp only [hrRest, ht1, if_pos hf, if_true, List.nil_append]
      omega
    · simp only [hrRest, ht1, if_neg hf, if_true]
      rw [lineCount_oneLine_append _ _ hone]
      omega
termination_by s.length
decreasing_by
  have hne : s ≠ [] := by
    intro hn
    rw [hn] at hterm
    simp [terminated] at hterm
  exact readLine_snd_length s hne

/-- A stream with no `"From: "` line passes through the tail loop unchanged. -/
theorem hrRest_no_from (s : Bytes) (h : countFrom s = 0) :
    hrRest (allLines s) = s := by
  rcases readLine_cases s with ⟨h1, h2⟩ | h1
  · have hf : fromMark.isPrefixOf s = false := by
      cases hb : fromMark.isPrefixOf s
      · rfl
      · exfalso
        unfold countFrom at h
        rw [allLines_no_newline s h2, List.filter_cons, hb] at h
        simp at h
    rw [allLines_no_newline s h2]
    by_cases ht : terminated s <;> simp [hrRest, ht, hf]
  · have happ := readLine_append s
    have hAL : allLines s = (readLine s).1 :: allLines (readLine s).2 := by
      conv_lhs => rw [← happ]
      exact allLines_append _ _ h1
    have hcf : (if fromMark.isPrefixOf (readLine s).1 then 1 else 0) +
        countFrom (readLine s).2 = 0 := by
      rw [← countFrom_oneLine_append _ _ h1, happ]
      exact h
    have hf : fromMark.isPrefixOf (readLine s).1 = false := by
      cases hb : fromMark.isPrefixOf (readLine s).1
      · rfl
      · rw [hb] at hcf
        simp at hcf
    have hrec := hrRest_no_from (readLine s).2 (by omega)
    rw [hAL]
    simp only [hrRest, oneLine_terminated _ h1, if_true, hf]
    simp only [Bool.false_eq_true, if_false]
    rw [hrec, happ]
termination_by s.length
decreasing_by
  have hne : s ≠ [] := by
    intro hn
    rw [hn] at h1
    simp [readLine, oneLine] at h1
  exact readLine_snd_length s hne

/-- On empty input the very first `ReadBytes` reports `io.EOF` with an empty
chunk, so the loop returns an empty buffer: no header is ever emitted. -/
theorem headerRewriter_nil (headers : List Bytes) : headerRewriter [] headers = [] := by
  rfl

/-- An input with no newline is returned verbatim: the first read reports
`io.EOF`, so the header block and both removal rules are skipped. -/
theorem headerRewriter_no_newline (s : Bytes) (headers : List Bytes)
    (hs : '\n' ∉ s) : headerRewriter s headers = s := by
  unfold headerRewriter
  rw [allLines_no_newline s hs]
  have ht : terminated s = false := by
    unfold terminated
    cases hg : s.getLast? with
    | none => rfl
    | some a =>
      have ha : a ∈ s := List.mem_of_getLast?_eq_some hg
      have : ¬ a = '\n' := fun he => hs (he ▸ ha)
      simp [this]
  simp [hrLoop, ht]

/-- C3, amended: for every input whose final line is terminated, lines out
plus the envelope discard plus the `"From: "` discards equals the synthesized
headers plus lines in (the claim's formula, stated additively), provided each
synthesized header is a single line (contains no newline byte).  The formula
fails as originally stated on inputs whose final line is unterminated (in
particular empty input) and on headers containing newline bytes
(`c3_count_cex`). -/
theorem c3_count (s : Bytes) (headers : List Bytes)
    (hterm : terminated s = true) (hh : ∀ h ∈ headers, '\n' ∉ h) :
    lineCount (headerRewriter s headers) +
        (if envMark.isPrefixOf (firstLine s) then 1 else 0) + countFrom s
      = headers.length + lineCount s := by
  have hone := oneLine_readLine s hterm
  have happ := readLine_append s
  have hmaster : headerRewriter s headers =
      hdrBlock headers (guessLineEnding (readLine s).1) ++ keep1 (readLine s).1 ++
        hrRest (allLines (readLine s).2) := by
    conv_lhs => rw [← happ]
    exact headerRewriter_cons _ _ headers hone
  have htc := lineCount_hrRest (readLine s).2 (readLine_snd_terminated s hterm)
  have hcnt : lineCount s = 1 + lineCount (readLine s).2 := by
    conv_lhs => rw [← happ]
    exact lineCount_oneLine_append _ _ hone
  have hcf : countFrom s =
      (if fromMark.isPrefixOf (readLine s).1 then 1 else 0) +
        countFrom (readLine s).2 := by
    conv_lhs => rw [← happ]
    exact countFrom_oneLine_append _ _ hone
  have hhdr : ∀ X, lineCount (hdrBlock headers (guessLineEnding (readLine s).1) ++ X)
      = headers.length + lineCount X :=
    fun X => lineCount_hdrBlock headers _ X hh (guessLineEnding_cases _)
  have hfl : firstLine s = (readLine s).1 := rfl
  rw [hmaster, List.append_assoc, hhdr, hcnt, hcf, hfl]
  cases henv : envMark.isPrefixOf (readLine s).1 with
  | true =>
    have hnf := env_from_disjoint _ henv
    have hk : keep1 (readLine s).1 = [] := by simp [keep1, henv]
    rw [hk, List.nil_append, hnf]
    simp only [if_true, Bool.false_eq_true, if_false]
    omega
  | false =>
    have hk1 : ¬ (envMark.isPrefixOf (readLine s).1 = true) := by simp [henv]
    cases hfrom : fromMark.isPrefixOf (readLine s).1 with
    | true =>
      have hk : keep1 (readLine s).1 = [] := by simp [keep1, henv, hfrom]
      rw [hk, List.nil_append]
      simp only [henv, hfrom, Bool.false_eq_true, if_false, if_true]
      omega
    | false =>
      have hk : keep1 (readLine s).1 = (readLine s).1 := by
        simp [keep1, henv, hfrom]
      rw [hk, lineCount_oneLine_append _ _ hone]
      simp only [henv, hfrom, Bool.false_eq_true, if_false]
      omega

/-- C3, counterexample to the claim as stated: on empty input the output is
empty, not the synthesized headers (formula predicts 1 line, output has 0);
a synthesized "header" containing a newline contributes 2 lines; an input
whose final line is unterminated keeps a matching `"From: "` line. -/
theorem c3_count_cex :
    (lineCount (headerRewriter [] ["H: v".toList]) +
        (if envMark.isPrefixOf (firstLine []) then 1 else 0) + countFrom []
      ≠ ["H: v".toList].length + lineCount []) ∧
    (lineCount (headerRewriter "x\n".toList ["A\nB".toList]) +
        (if envMark.isPrefixOf (firstLine "x\n".toList) then 1 else 0) +
          countFrom "x\n".toList
      ≠ ["A\nB".toList].length + lineCount "x\n".toList) ∧
    (lineCount (headerRewriter "From: x".toList []) +
        (if envMark.isPrefixOf (firstLine "From: x".toList) then 1 else 0) +
          countFrom "From: x".toList
      ≠ ([] : List Bytes).length + lineCount "From: x".toList) := by
  decide

/-- C3, witness: the amended count formula at a concrete message with an
envelope line, a removed `From:` header and one synthesized header. -/
theorem c3_count_witness :
    lineCount (headerRewriter "From x\nFrom: a\nhi\n".toList ["H: v".toList]) +
        (if envMark.isPrefixOf (firstLine "From x\nFrom: a\nhi\n".toList) then 1 else 0) +
          countFrom "From x\nFrom: a\nhi\n".toList
      = ["H: v".toList].length + lineCount "From x\nFrom: a\nhi\n".toList :=
  c3_count _ _ (by decide) (by decide)

/-- C4, amended: empty input produces empty output (the synthesized headers
are not emitted); an input with no line terminator — in particular a single
unterminated line — is emitted verbatim, with neither the headers inserted
nor the envelope/`From:` rules applied; from the second line on the loop
behaves as `hrRest`, which never discards a line for the envelope marker:
a terminated line not matching `"From: "` is always kept. -/
theorem c4_edges :
    (∀ headers : List Bytes, headerRewriter [] headers = []) ∧
    (∀ (s : Bytes) (headers : List Bytes), '\n' ∉ s →
      headerRewriter s headers = s) ∧
    (∀ (headers ls : List Bytes) (ln : Nat), 2 ≤ ln →
      hrLoop headers ln ls = hrRest ls) ∧
    (∀ (l : Bytes) (ls : List Bytes), terminated l = true →
      fromMark.isPrefixOf l = false → hrRest (l :: ls) = l ++ hrRest ls) := by
  refine ⟨headerRewriter_nil, headerRewriter_no_newline, ?_, ?_⟩
  · exact fun headers ls ln h => hrLoop_ge_two headers ls ln h
  · intro l ls ht hf
    simp [hrRest, ht, hf]

/-- C4, counterexample to the claim as stated: empty input yields empty
output, not the synthesized headers; a single unterminated line matching the
`From:` removal prefix (resp. the envelope prefix) is kept verbatim and no
headers are emitted. -/
theorem c4_edges_cex :
    (headerRewriter [] ["H: v".toList] = [] ∧ ("H: v\n".toList : Bytes) ≠ []) ∧
    headerRewriter "From: x".toList ["H: v".toList] = "From: x".toList ∧
    headerRewriter "From x".toList ["H: v".toList] = "From x".toList := by
  decide

/-- C4, witness: the amended edge-case behaviour at concrete inputs. -/
theorem c4_edges_witness :
    headerRewriter "abc".toList ["H: v".toList] = "abc".toList ∧
    hrRest ["From x\n".toList] = "From x\n".toList ++ hrRest [] :=
  ⟨c4_edges.2.1 _ _ (by decide), c4_edges.2.2.2 _ _ (by decide) (by decide)⟩

/-- C5, amended: for an input whose first line is terminated and well formed,
whose first line does not match the envelope prefix and which contains no
line matching the `"From: "` removal prefix, the output is exactly the
synthesized headers (each with the canonical terminator) followed by the
input unmodified.  (For an input with no terminator at all the headers are
not emitted — see `c5_roundtrip_cex`.) -/
theorem c5_roundtrip (l t : Bytes) (headers : List Bytes) (h1 : oneLine l)
    (henv : envMark.isPrefixOf l = false) (hfrom : countFrom (l ++ t) = 0) :
    headerRewriter (l ++ t) headers =
      hdrBlock headers (guessLineEnding l) ++ (l ++ t) := by
  have hsplit : (if fromMark.isPrefixOf l then 1 else 0) + countFrom t = 0 := by
    rw [← countFrom_oneLine_append _ _ h1]
    exact hfrom
  have hf : fromMark.isPrefixOf l = false := by
    cases hb : fromMark.isPrefixOf l
    · rfl
    · rw [hb] at hsplit
      simp at hsplit
  have ht : countFrom t = 0 := by omega
  rw [headerRewriter_cons l t headers h1, hrRest_no_from t ht]
  have hk : keep1 l = l := by simp [keep1, henv, hf]
  rw [hk, List.append_assoc]

/-- C5, counterexample to the claim as stated: the input `"abc"` has no
envelope first line and no `"From: "` line, yet the output is `"abc"` — the
synthesized header was never emitted. -/
theorem c5_roundtrip_cex :
    envMark.isPrefixOf (firstLine "abc".toList) = false ∧
    countFrom "abc".toList = 0 ∧
    headerRewriter "abc".toList ["H: v".toList] = "abc".toList ∧
    ("abc".toList : Bytes) ≠ "H: v\n".toList ++ "abc".toList := by
  decide

/-- C5, witness: the amended round-trip at a concrete message. -/
theorem c5_roundtrip_witness :
    headerRewriter ("Subject: hi\n".toList ++ "\nbody".toList) ["H: v".toList] =
      hdrBlock ["H: v".toList] (guessLineEnding "Subject: hi\n".toList) ++
        ("Subject: hi\n".toList ++ "\nbody".toList) :=
  c5_roundtrip _ _ _ (by decide) (by decide) (by decide)

/-- C6, amended: when the input's first line is terminated, the terminator
appended to every synthesized header is determined solely by that line —
`"\r\n"` when it ends in `"\r\n"`, else `"\n"`; when the input contains no
terminator at all (so the first read already reports `io.EOF`) no synthesized
header is emitted and the input passes through verbatim. -/
theorem c6_terminator (l t : Bytes) (headers : List Bytes) (h1 : oneLine l) :
    (crlf.isSuffixOf l = true →
      headerRewriter (l ++ t) headers =
        hdrBlock headers crlf ++ keep1 l ++ hrRest (allLines t)) ∧
    (crlf.isSuffixOf l = false →
      headerRewriter (l ++ t) headers =
        hdrBlock headers lf ++ keep1 l ++ hrRest (allLines t)) ∧
    (∀ (s : Bytes) (hs : List Bytes), '\n' ∉ s → headerRewriter s hs = s) := by
  refine ⟨?_, ?_, headerRewriter_no_newline⟩
  · intro hsuf
    rw [headerRewriter_cons l t headers h1]
    unfold guessLineEnding
    rw [if_pos hsuf]
  · intro hsuf
    rw [headerRewriter_cons l t headers h1]
    unfold guessLineEnding
    rw [if_neg (by simp [hsuf])]

/-- C6, counterexample to the claim as stated: the input `"abc"` has an
unterminated line 1 (not ending in `"\r\n"`), so the claim predicts every
synthesized header is emitted followed by `"\n"`; actually nothing of the
header `"H: v"` is emitted at all. -/
theorem c6_terminator_cex :
    headerRewriter "abc".toList ["H: v".toList] = "abc".toList ∧
    'H' ∉ headerRewriter "abc".toList ["H: v".toList] := by
  decide

/-- C6, witness: a `"\r\n"`-terminated first line makes every synthesized
header use `"\r\n"`. -/
theorem c6_terminator_witness :
    headerRewriter ("A: b\r\n".toList ++ "t".toList) ["H: v".toList] =
      hdrBlock ["H: v".toList] crlf ++ keep1 "A: b\r\n".toList ++
        hrRest (allLines "t".toList) :=
  (c6_terminator _ _ _ (by decide)).1 (by decide)

/-- C10: both removal rules are exact byte-prefix matches including the
trailing space.  A terminated line after line 1 is dropped exactly when it
begins with the six bytes `"From: "`; line 1 (when well formed) is kept
whenever it matches neither `"From "` nor `"From: "`; lines like
`"From:Alice"` (no space after the colon) and `"from: alice"` (different
case) match neither marker and pass through unchanged, while an
envelope-marked line is only dropped on line 1. -/
theorem c10_markers :
    (∀ (l : Bytes) (ls : List Bytes), terminated l = true →
      fromMark.isPrefixOf l = true → hrRest (l :: ls) = hrRest ls) ∧
    (∀ (l : Bytes) (ls : List Bytes), terminated l = true →
      fromMark.isPrefixOf l = false → hrRest (l :: ls) = l ++ hrRest ls) ∧
    (∀ (l t : Bytes) (headers : List Bytes), oneLine l →
      envMark.isPrefixOf l = false → fromMark.isPrefixOf l = false →
      headerRewriter (l ++ t) headers =
        hdrBlock headers (guessLineEnding l) ++ (l ++ hrRest (allLines t))) ∧
    (fromMark.isPrefixOf "From:Alice\n".toList = false ∧
      envMark.isPrefixOf "From:Alice\n".toList = false) ∧
    (fromMark.isPrefixOf "from: alice\n".toList = false ∧
      envMark.isPrefixOf "from: alice\n".toList = false) ∧
    headerRewriter "x\nFrom x\nFrom:Alice\nfrom: alice\n".toList [] =
      "x\nFrom x\nFrom:Alice\nfrom: alice\n".toList ∧
    headerRewriter "From x\n".toList [] = [] := by
  refine ⟨?_, ?_, ?_, by decide, by decide, by decide, by decide⟩
  · intro l ls ht hf
    simp [hrRest, ht, hf]
  · intro l ls ht hf
    simp [hrRest, ht, hf]
  · intro l t headers h1 henv hf
    rw [headerRewriter_cons l t headers h1]
    have hk : keep1 l = l := by simp [keep1, henv, hf]
    rw [hk, List.append_assoc]

/-- C10, witness: the removal rules applied at concrete lines. -/
theorem c10_markers_witness :
    hrRest ["From: x\n".toList, "body".toList] = hrRest ["body".toList] ∧
    hrRest ["From x\n".toList, "b".toList] =
      "From x\n".toList ++ hrRest ["b".toList] :=
  ⟨c10_markers.1 _ _ (by decide) (by decide),
   c10_markers.2.1 _ _ (by decide) (by decide)⟩

/-! ### Bracket stripping -/

theorem stripAngles_of_two_le (rp : Bytes) (h : 2 ≤ rp.length) :
    stripAngles rp = some ((rp.drop 1).take (rp.length - 2)) := by
  unfold stripAngles goSlice
  rw [if_pos (by refine ⟨by norm_num, ?_, ?_⟩ <;> omega)]
  have h2 : (((rp.length : Int) - 1) - 1).toNat = rp.length - 2 := by omega
  rw [h2]
  rfl

theorem stripAngles_len_one (rp : Bytes) (h : rp.length = 1) :
    stripAngles rp = none := by
  unfold stripAngles goSlice
  rw [if_neg]
  intro hcon
  omega

/-- C2: the resolver's response-code dispatch.  Code 200 returns the payload;
code 500 returns the original key and emits exactly one warning line (and is
the only warning case); any other code is an error carrying code and
message; dial, command-write and read failures (the latter covering a
malformed response line) are errors.  No error case emits a warning. -/
theorem c2_resolver (key msg : Bytes) (code : Int) :
    lookupTCP key (.reply 200 msg) = (Except.ok msg, []) ∧
    lookupTCP key (.reply 500 msg) = (Except.ok key, [warning500 msg]) ∧
    (code ≠ 200 → code ≠ 500 →
      lookupTCP key (.reply code msg) =
        (Except.error (TTError.unexpectedCode code msg), [])) ∧
    lookupTCP key .dialErr = (Except.error TTError.dialFailed, []) ∧
    lookupTCP key .cmdErr = (Except.error TTError.cmdFailed, []) ∧
    lookupTCP key .readErr = (Except.error TTError.readFailed, []) ∧
    (∀ conn : ConnBehavior, (lookupTCP key conn).2 ≠ [] →
      ∃ m, conn = .reply 500 m ∧ (lookupTCP key conn).2 = [warning500 m]) := by
  refine ⟨by simp [lookupTCP], by simp [lookupTCP], ?_, rfl, rfl, rfl, ?_⟩
  · intro h1 h2
    simp [lookupTCP, h1, h2]
  · intro conn h
    cases conn with
    | dialErr => simp [lookupTCP] at h
    | cmdErr => simp [lookupTCP] at h
    | readErr => simp [lookupTCP] at h
    | reply c m =>
      by_cases hc1 : c = 200
      · subst hc1
        simp [lookupTCP] at h
      · by_cases hc2 : c = 500
        · subst hc2
          exact ⟨m, rfl, by simp [lookupTCP]⟩
        · simp [lookupTCP, hc1, hc2] at h

/-- C2, witness: the spec's three sample exchanges for key `x@y.com`. -/
theorem c2_resolver_witness :
    lookupTCP "x@y.com".toList (.reply 200 "a@b.com".toList) =
      (Except.ok "a@b.com".toList, []) ∧
    lookupTCP "x@y.com".toList (.reply 500 "anything".toList) =
      (Except.ok "x@y.com".toList, [warning500 "anything".toList]) ∧
    lookupTCP "x@y.com".toList (.reply 404 "nope".toList) =
      (Except.error (TTError.unexpectedCode 404 "nope".toList), []) :=
  ⟨(c2_resolver "x@y.com".toList "a@b.com".toList 404).1,
   (c2_resolver "x@y.com".toList "anything".toList 404).2.1,
   (c2_resolver "x@y.com".toList "nope".toList 404).2.2.1
     (by norm_num) (by norm_num)⟩

/-- C7: the failure-to-exit-code mapping.  An unparsable message or an
absent (empty) return-path value exits 65 with no delivery invocation; any
resolver failure (dial, write, read, or unexpected code) exits 75 with no
delivery invocation; both success responses (200 and 500) lead to exit 0,
in dry-run mode without invoking delivery, otherwise through a successful
delivery run. -/
theorem c7_exit_codes (hostname timestamp : Bytes) (m : MsgHeaders)
    (conn : ConnBehavior) (dr sm : Bool) (code : Int) (msg : Bytes)
    (hlen : 2 ≤ m.returnPath.length) :
    mainModel hostname timestamp none conn dr sm =
      ⟨Outcome.exited 65, false, none, none⟩ ∧
    mainModel hostname timestamp (some ⟨[], m.fromField⟩) conn dr sm =
      ⟨Outcome.exited 65, false, none, none⟩ ∧
    ((mainModel hostname timestamp (some m) .dialErr dr sm).outcome =
        Outcome.exited 75 ∧
      (mainModel hostname timestamp (some m) .dialErr dr sm).sendmailInvoked =
        false) ∧
    ((mainModel hostname timestamp (some m) .cmdErr dr sm).outcome =
        Outcome.exited 75 ∧
      (mainModel hostname timestamp (some m) .cmdErr dr sm).sendmailInvoked =
        false) ∧
    ((mainModel hostname timestamp (some m) .readErr dr sm).outcome =
        Outcome.exited 75 ∧
      (mainModel hostname timestamp (some m) .readErr dr sm).sendmailInvoked =
        false) ∧
    (code ≠ 200 → code ≠ 500 →
      (mainModel hostname timestamp (some m) (.reply code msg) dr sm).outcome =
          Outcome.exited 75 ∧
        (mainModel hostname timestamp (some m) (.reply code msg) dr
            sm).sendmailInvoked = false) ∧
    (code = 200 ∨ code = 500 →
      (mainModel hostname timestamp (some m) (.reply code msg) true sm).outcome =
          Outcome.exited 0 ∧
        (mainModel hostname timestamp (some m) (.reply code msg) true
            sm).sendmailInvoked = false) ∧
    (code = 200 ∨ code = 500 →
      (mainModel hostname timestamp (some m) (.reply code msg) false
          true).outcome = Outcome.exited 0) := by
  have hne : ¬ m.returnPath = [] := by
    intro hn
    rw [hn] at hlen
    simp at hlen
  have hstrip := stripAngles_of_two_le m.returnPath hlen
  refine ⟨rfl, by simp [mainModel], ?_, ?_, ?_, ?_, ?_, ?_⟩
  · simp [mainModel, hne, hstrip, lookupTCP]
  · simp [mainModel, hne, hstrip, lookupTCP]
  · simp [mainModel, hne, hstrip, lookupTCP]
  · intro h1 h2
    simp [mainModel, hne, hstrip, lookupTCP, h1, h2]
  · rintro (rfl | rfl) <;> simp [mainModel, hne, hstrip, lookupTCP]
  · rintro (rfl | rfl) <;> simp [mainModel, hne, hstrip, lookupTCP]

/-- C7, witness: a concrete run of each mapped outcome. -/
theorem c7_exit_codes_witness :
    mainModel "h".toList "t".toList none .dialErr false true =
      ⟨Outcome.exited 65, false, none, none⟩ ∧
    (mainModel "h".toList "t".toList (some ⟨"<a@b>".toList, []⟩) .dialErr
        false true).outcome = Outcome.exited 75 ∧
    (mainModel "h".toList "t".toList (some ⟨"<a@b>".toList, []⟩)
        (.reply 200 "r".toList) true true).outcome = Outcome.exited 0 :=
  ⟨(c7_exit_codes "h".toList "t".toList ⟨"<a@b>".toList, []⟩ .dialErr false
      true 404 [] (by decide)).1,
   (c7_exit_codes "h".toList "t".toList ⟨"<a@b>".toList, []⟩ .dialErr false
      true 404 [] (by decide)).2.2.1.1,
   ((c7_exit_codes "h".toList "t".toList ⟨"<a@b>".toList, []⟩ .dialErr true
      true 200 "r".toList (by decide)).2.2.2.2.2.2.1 (Or.inl rfl)).1⟩

/-- C9: a present return-path value of length exactly 1 makes the
bracket-stripping slice `returnPath[1:0]` panic, so the process terminates
with neither exit 65 nor 75 and delivery is never invoked; values of length
at least 2 never panic there; the empty value is rejected earlier with
exit 65. -/
theorem c9_one_byte_panics (hostname timestamp : Bytes) (m : MsgHeaders)
    (conn : ConnBehavior) (dr sm : Bool) (h1 : m.returnPath.length = 1) :
    mainModel hostname timestamp (some m) conn dr sm =
      ⟨Outcome.panicked, false, none,
        some (extraHeaders hostname timestamp m.returnPath)⟩ ∧
    (∀ c : Nat, (Outcome.panicked : Outcome) ≠ Outcome.exited c) ∧
    (∀ rp : Bytes, 2 ≤ rp.length → stripAngles rp ≠ none) ∧
    (∀ m2 : MsgHeaders, m2.returnPath = [] →
      mainModel hostname timestamp (some m2) conn dr sm =
        ⟨Outcome.exited 65, false, none, none⟩) := by
  have hne : ¬ m.returnPath = [] := by
    intro hn
    rw [hn] at h1
    simp at h1
  refine ⟨?_, by intro c h; exact Outcome.noConfusion h, ?_, ?_⟩
  · simp [mainModel, hne, stripAngles_len_one m.returnPath h1]
  · intro rp h2
    rw [stripAngles_of_two_le rp h2]
    exact Option.some_ne_none _
  · intro m2 h2
    simp [mainModel, h2]

/-- C9, witness: a run with return-path value `"x"` panics. -/
theorem c9_one_byte_panics_witness :
    mainModel "h".toList "t".toList (some ⟨"x".toList, []⟩)
        (.reply 200 "r".toList) false true =
      ⟨Outcome.panicked, false, none,
        some (extraHeaders "h".toList "t".toList "x".toList)⟩ :=
  (c9_one_byte_panics "h".toList "t".toList ⟨"x".toList, []⟩
    (.reply 200 "r".toList) false true (by decide)).1

/-- C8, counterexample to the claim as stated: the non-empty return-path
value `"x"` is not stripped and passed to the resolver — the slice
`returnPath[1:0]` panics, so the run never reaches the resolver. -/
theorem c8_strip_cex :
    stripAngles "x".toList = none ∧
    mainModel "h".toList "t".toList (some ⟨"x".toList, []⟩)
        (.reply 200 "r".toList) false true =
      ⟨Outcome.panicked, false, none,
        some (extraHeaders "h".toList "t".toList "x".toList)⟩ := by
  decide

/-- C8, amended: for every return-path value of length at least 2, the
Extract step removes exactly the first and the last byte — the `'<'` and
`'>'` brackets when the value is bracket-delimited — and the result is what
reaches the resolver (visible through the code-500 soft miss, which returns
the resolver's key), while the `X-Original-Return-Path` synthesized header
carries the pre-resolution, unstripped value (it is composed before the
stripping at line 174). -/
theorem c8_strip (rp mid hostname timestamp msg : Bytes) (m : MsgHeaders)
    (dr : Bool) (h2 : 2 ≤ rp.length) (hm : 2 ≤ m.returnPath.length) :
    stripAngles rp = some ((rp.drop 1).take (rp.length - 2)) ∧
    stripAngles ('<' :: mid ++ ['>']) = some mid ∧
    (extraHeaders hostname timestamp rp).getLast? =
      some ("X-Original-Return-Path: ".toList ++ rp) ∧
    (mainModel hostname timestamp (some m) (.reply 200 msg) dr
        true).synthesized =
      some (extraHeaders hostname timestamp m.returnPath) ∧
    (mainModel hostname timestamp (some m) (.reply 500 msg) dr true).fArg =
      some ((m.returnPath.drop 1).take (m.returnPath.length - 2)) := by
  have hne : ¬ m.returnPath = [] := by
    intro hn
    rw [hn] at hm
    simp at hm
  have hstrip := stripAngles_of_two_le m.returnPath hm
  refine ⟨stripAngles_of_two_le rp h2, ?_, rfl, ?_, ?_⟩
  · have hlen : ('<' :: mid ++ ['>']).length = mid.length + 2 := by simp
    rw [stripAngles_of_two_le _ (by omega), hlen]
    have hdrop : ('<' :: mid ++ ['>']).drop 1 = mid ++ ['>'] := rfl
    rw [hdrop, show mid.length + 2 - 2 = mid.length from rfl,
      List.take_left mid ['>']]
  · cases dr <;> simp [mainModel, hne, hstrip, lookupTCP]
  · cases dr <;> simp [mainModel, hne, hstrip, lookupTCP]

/-- C8, witness: the canonical bracket-delimited value `"<a@b>"` is stripped
to `"a@b"`, the synthesized header carries `"<a@b>"`, and a soft-miss run
hands sendmail the stripped value. -/
theorem c8_strip_witness :
    stripAngles ('<' :: "a@b".toList ++ ['>']) = some "a@b".toList ∧
    (extraHeaders "h".toList "t".toList "<a@b>".toList).getLast? =
      some ("X-Original-Return-Path: ".toList ++ "<a@b>".toList) ∧
    (mainModel "h".toList "t".toList (some ⟨"<a@b>".toList, []⟩)
        (.reply 500 "r".toList) false true).fArg =
      some (("<a@b>".toList.drop 1).take ("<a@b>".toList.length - 2)) :=
  ⟨(c8_strip "<a@b>".toList "a@b".toList "h".toList "t".toList "r".toList
      ⟨"<a@b>".toList, []⟩ false (by decide) (by decide)).2.1,
   (c8_strip "<a@b>".toList "a@b".toList "h".toList "t".toList "r".toList
      ⟨"<a@b>".toList, []⟩ false (by decide) (by decide)).2.2.1,
   (c8_strip "<a@b>".toList "a@b".toList "h".toList "t".toList "r".toList
      ⟨"<a@b>".toList, []⟩ false (by decide) (by decide)).2.2.2.2⟩

/-- C1: the capture phase does not stop at the header/body boundary.  At the
concrete message `"A: b\n\nFrom: evil\nBody line\n"` the boundary recognized
by the structured parser is byte 6, but when the chunked read through the
tee pulls the whole (here 28-byte, i.e. far below one bufio chunk) input,
the captured buffer contains the body, and the rewrite deletes the body line
`"From: evil"`; capturing exactly up to the boundary would have preserved the
body byte-for-byte.  The two composed output streams differ, refuting the
claimed invariant that body lines are never inspected, removed or altered. -/
theorem c1_body_line_removed :
    headerBoundary "A: b\n\nFrom: evil\nBody line\n".toList = 6 ∧
    pipeOutput "A: b\n\nFrom: evil\nBody line\n".toList
        ("A: b\n\nFrom: evil\nBody line\n".toList).length ["X-H: v".toList] =
      "X-H: v\nA: b\n\nBody line\n".toList ∧
    pipeOutput "A: b\n\nFrom: evil\nBody line\n".toList
        (headerBoundary "A: b\n\nFrom: evil\nBody line\n".toList)
        ["X-H: v".toList] =
      "X-H: v\nA: b\n\n".toList ++ "From: evil\nBody line\n".toList ∧
    pipeOutput "A: b\n\nFrom: evil\nBody line\n".toList
        ("A: b\n\nFrom: evil\nBody line\n".toList).length ["X-H: v".toList] ≠
      pipeOutput "A: b\n\nFrom: evil\nBody line\n".toList
        (headerBoundary "A: b\n\nFrom: evil\nBody line\n".toList)
        ["X-H: v".toList] := by
  decide

end Postforward
